import Mathlib

/-!
Verification of the `code-to-pdf` snippet extractor (`src/code_to_pdf.py`).
Strings are modelled as `List Char`; Python `set`s of names are modelled as
duplicate-free `List (List Char)` in insertion order, with `set.pop()`'s
arbitrary-element choice abstracted by a `choice : List (List Char) → Nat`
parameter (the element at index `choice s % s.length` is removed; the real
interpreter's choice depends on hash-table layout and per-process hash
randomization).  Floating-point arithmetic in `calc_fontsize` is modelled
exactly over `ℚ`.  The external parsers (libclang, `ast`) are modelled as
oracles: each input file carries the syntax tree that its parse produces.
-/

deriving instance DecidableEq for Except

namespace CodeToPdf

/-- One newline, the separator `"\n"` used by the Python helper loop. -/
def nl1 : List Char := ['\n']

/-- Two newlines, the separator `"\n\n"` used by the C++ helper loop. -/
def nl2 : List Char := ['\n', '\n']

/-- Python whitespace characters relevant to `str.strip` here. -/
def isSpaceChar (c : Char) : Bool :=
  c == ' ' || c == '\n' || c == '\t' || c == '\r'

/-- Python `str.strip()`: drop leading and trailing whitespace. -/
def pystrip (s : List Char) : List Char :=
  ((s.dropWhile isSpaceChar).reverse.dropWhile isSpaceChar).reverse

/-- Python `str.splitlines()` (restricted to `'\n'` terminators, which are the
only line breaks the extracted snippets contain): split on newlines, with no
trailing empty line for a trailing newline, and `[]` for the empty string. -/
def splitlines_go : List Char → List Char → List (List Char)
  | [], acc => [acc.reverse]
  | c :: rest, acc =>
    if c = '\n' then
      acc.reverse :: (match rest with | [] => [] | _ => splitlines_go rest [])
    else splitlines_go rest (c :: acc)

def splitlines (s : List Char) : List (List Char) :=
  match s with
  | [] => []
  | _ => splitlines_go s []

/-- Python slice `content[b0:b1]` (for `0 ≤ b0 ≤ b1`). -/
def extract (content : List Char) (b0 b1 : Nat) : List Char :=
  (content.drop b0).take (b1 - b0)

/-- Python `set.add`: insert if not already present (insertion order kept). -/
def sadd (s : List (List Char)) (x : List Char) : List (List Char) :=
  if x ∈ s then s else s ++ [x]

/-- The loop guard of `unindent`:
`all(len(line) > 0 and line[0] == " " for line in snippet)`. -/
def allStartSpace (snippet : List (List Char)) : Bool :=
  snippet.all fun line =>
    match line with
    | [] => false
    | c :: _ => c == ' '

/-- The body of `unindent`'s `while` loop, run `fuel` times at most:
while every line is non-empty and starts with a space, strip one leading
space (`line[1:]`, i.e. `tail`) from every line. -/
def unindentGo : Nat → List (List Char) → List (List Char)
  | 0, snippet => snippet
  | fuel + 1, snippet =>
    if allStartSpace snippet then unindentGo fuel (snippet.map List.tail)
    else snippet

/-- Model of `unindent` (src/code_to_pdf.py:20-26).  The `while` loop can run at most
`length of the first line` rounds when the list is non-empty (each round
requires the first line to be non-empty and shortens it by one), so that
fuel computes exactly the loop's result.  On the empty list the Python loop
never terminates (`all([])` is true); the model returns `[]` there. -/
def unindent (snippet : List (List Char)) : List (List Char) :=
  unindentGo (snippet.headD []).length snippet

/-- Number of leading `' '` characters of a line. -/
def leadingSpaces : List Char → Nat
  | [] => 0
  | c :: rest => if c = ' ' then leadingSpaces rest + 1 else 0

/-! ## Page Formatter: `calc_fontsize` (src/code_to_pdf.py:13-17,154-162) -/
def MAX_HEIGHT_IN : ℚ := 8.5

def MAX_WIDTH_IN : ℚ := 7

def PT_PER_INCH : ℚ := 72

/-- listing package default character box width, in em. -/
def BOX_WIDTH_EM : ℚ := 0.6

/-- double space -/
def LINE_SPACE_SCALE : ℚ := 2

/-- Python `max([len(line) for line in code])` (raises on an empty list;
the model returns 0 there, and the claims assume a non-empty list). -/
def maxLen (code : List (List Char)) : Nat :=
  (code.map List.length).foldr Nat.max 0

/-- Model of `calc_fontsize` (src/code_to_pdf.py:154-162), with the float arithmetic
carried out exactly over `ℚ`. -/
def calc_fontsize (code : List (List Char)) : ℚ :=
  let h_min : ℚ := MAX_HEIGHT_IN * PT_PER_INCH / ((code.length : ℚ) * LINE_SPACE_SCALE)
  let longest_line : Nat := maxLen code
  let w_min : ℚ := MAX_WIDTH_IN * PT_PER_INCH / ((longest_line : ℚ) * BOX_WIDTH_EM)
  min h_min w_min

/-! ## The clang AST model and the C-family resolver
(src/code_to_pdf.py:29-89).  A cursor is modelled by its kind, spelling,
`is_definition()` flag, extent (character offsets into the file content)
and ordered children. -/
inductive CKind where
  | FUNCTION_DECL
  | COMPOUND_STMT
  | CALL_EXPR
  | OTHER
deriving DecidableEq

mutual
inductive CNode where
  | mk : CKind → List Char → Bool → Nat → Nat → CForest → CNode
deriving DecidableEq
inductive CForest where
  | nil : CForest
  | cons : CNode → CForest → CForest
deriving DecidableEq
end

def CNode.kind : CNode → CKind
  | .mk k _ _ _ _ _ => k

def CNode.spelling : CNode → List Char
  | .mk _ sp _ _ _ _ => sp

def CNode.is_definition : CNode → Bool
  | .mk _ _ d _ _ _ => d

def CNode.extentStart : CNode → Nat
  | .mk _ _ _ s _ _ => s

def CNode.extentEnd : CNode → Nat
  | .mk _ _ _ _ e _ => e

def CNode.children : CNode → CForest
  | .mk _ _ _ _ _ cs => cs

def CForest.toList : CForest → List CNode
  | .nil => []
  | .cons n f => n :: CForest.toList f

/-- The match condition of `clang_find_function` (src/code_to_pdf.py:35-39):
a `FUNCTION_DECL` cursor whose spelling is the target and which is a
definition. -/
def isTargetDef (func_name : List Char) (n : CNode) : Bool :=
  n.kind == CKind.FUNCTION_DECL && n.spelling == func_name && n.is_definition

/-- The helper collection of `clang_find_function` (src/code_to_pdf.py:43-48):
for each `COMPOUND_STMT` child of the matched function, add the spelling of
every `CALL_EXPR` direct child to the helper set (a shallow one-level scan). -/
def collect_compound_calls (cs : CForest) (helpers : List (List Char)) :
    List (List Char) :=
  cs.toList.foldl
    (fun h child =>
      if child.kind == CKind.COMPOUND_STMT then
        child.children.toList.foldl
          (fun h' sub =>
            if sub.kind == CKind.CALL_EXPR then sadd h' sub.spelling else h')
          h
      else h)
    helpers

mutual
/-- Model of `clang_find_function` (src/code_to_pdf.py:29-57): depth-first pre-order
search for the target definition; on a match, record the extent bounds, add
the target to `processed` and collect the compound statement's direct call
spellings into `helpers`.  The in-place mutation of the two Python sets is
modelled by returning them. -/
def clang_find_function (node : CNode) (func_name : List Char)
    (helpers processed : List (List Char)) :
    Option (Nat × Nat) × List (List Char) × List (List Char) :=
  match node with
  | .mk k sp d s e cs =>
    if isTargetDef func_name (.mk k sp d s e cs) then
      ((some (s, e), collect_compound_calls cs helpers, sadd processed func_name))
    else
      clang_find_forest cs func_name helpers processed

/-- The `for child in node.get_children()` loop of the non-match branch:
recurse on each child in order, stopping at the first non-`None` bounds. -/
def clang_find_forest (cs : CForest) (func_name : List Char)
    (helpers processed : List (List Char)) :
    Option (Nat × Nat) × List (List Char) × List (List Char) :=
  match cs with
  | .nil => (none, helpers, processed)
  | .cons c rest =>
    match clang_find_function c func_name helpers processed with
    | (some b, h, p) => (some b, h, p)
    | (none, h, p) => clang_find_forest rest func_name h p
end

mutual
def CNode.size : CNode → Nat
  | .mk _ _ _ _ _ cs => 1 + CForest.size cs

def CForest.size : CForest → Nat
  | .nil => 0
  | .cons n f => CNode.size n + CForest.size f
end

mutual
/-- Depth-first pre-order listing of the cursors of a subtree (the order in
which `clang_find_function` visits nodes); stated from the spec's words
"depth-first pre-order traversal of the tree", for comparison with the
traversal the code performs. -/
def dfs_preorder : CNode → List CNode
  | .mk k sp d s e cs => .mk k sp d s e cs :: dfs_preorder_forest cs

def dfs_preorder_forest : CForest → List CNode
  | .nil => []
  | .cons n f => dfs_preorder n ++ dfs_preorder_forest f
end

/-- The `while helpers:` loop of `get_cpp_func` (src/code_to_pdf.py:81-89),
with `set.pop()` modelled by removing the element at index
`choice helpers % helpers.length`, and run on explicit fuel (the source loop
terminates because every iteration pops one element and names enter the
worklist at most once per matched function; see `get_cpp_func` for the fuel
bound).  Returns the accumulated snippet and the final `processed` set. -/
def cpp_while (choice : List (List Char) → Nat) (tree : CNode)
    (content : List Char) :
    Nat → List (List Char) → List (List Char) → List Char →
    List Char × List (List Char)
  | 0, _, processed, snippet => (snippet, processed)
  | fuel + 1, helpers, processed, snippet =>
    match helpers with
    | [] => (snippet, processed)
    | _ =>
      let i := choice helpers % helpers.length
      let helper := helpers.getD i []
      let rest := helpers.eraseIdx i
      if helper ∈ processed then
        cpp_while choice tree content fuel rest processed snippet
      else
        match clang_find_function tree helper rest processed with
        | (bounds, h2, p2) =>
          let snippet' := match bounds with
            | some (b0, b1) => snippet ++ nl2 ++ extract content b0 b1
            | none => snippet
          cpp_while choice tree content fuel h2 (sadd p2 helper) snippet'

/-- Model of `get_cpp_func` (src/code_to_pdf.py:60-89).  `processed` starts as the
caller's `config.ignore_helpers` set (the Python code aliases that very set
and mutates it; the final `processed` is returned so callers can model the
aliasing).  The fuel `helpers.length + tree.size + 1` bounds the number of
loop iterations: each iteration pops one worklist element, and at most one
element per `CALL_EXPR` cursor of the tree is ever added. -/
def get_cpp_func (choice : List (List Char) → Nat) (tree : CNode)
    (content : List Char) (func_name : List Char)
    (ignore_helpers : List (List Char)) : List Char × List (List Char) :=
  match clang_find_function tree func_name [] ignore_helpers with
  | (bounds, helpers, processed) =>
    let snippet : List Char := match bounds with
      | some (b0, b1) => extract content b0 b1
      | none => []
    cpp_while choice tree content (helpers.length + tree.size + 1)
      helpers processed snippet

/-- The extent recorded for a matched cursor. -/
def extentOf (n : CNode) : Nat × Nat := (n.extentStart, n.extentEnd)

/-! ## The Python AST model and the Python resolver
(src/code_to_pdf.py:92-125).  A node carries the data the resolver reads:
for `FunctionDef`, its `name` and the `ast.get_source_segment` text; for
`Call`, the callee expression (`.func`).  Everything else is `other`. -/
/-- The callee expression of an `ast.Call` node. -/
inductive PyCallee where
  | name : List Char → PyCallee
  | attr : List Char → PyCallee
  | subscriptExpr : PyCallee
deriving DecidableEq

/-- Python exceptions the modelled code can raise. -/
inductive PyExc where
  | attributeError
  | parseError  -- models the SyntaxError that ast.parse raises
deriving DecidableEq

mutual
inductive PyNode where
  | functionDef : List Char → List Char → PyForest → PyNode
  | call : PyCallee → PyForest → PyNode
  | other : PyForest → PyNode
deriving DecidableEq
inductive PyForest where
  | nil : PyForest
  | cons : PyNode → PyForest → PyForest
deriving DecidableEq
end

def PyNode.pychildren : PyNode → PyForest
  | .functionDef _ _ cs => cs
  | .call _ cs => cs
  | .other cs => cs

def PyForest.toList : PyForest → List PyNode
  | .nil => []
  | .cons n f => n :: PyForest.toList f

mutual
def PyNode.size : PyNode → Nat
  | .functionDef _ _ cs => 1 + PyForest.size cs
  | .call _ cs => 1 + PyForest.size cs
  | .other cs => 1 + PyForest.size cs

def PyForest.size : PyForest → Nat
  | .nil => 0
  | .cons n f => PyNode.size n + PyForest.size f
end

/-- Model of `ast.walk`: breadth-first traversal (CPython keeps a FIFO deque seeded
with the root, popping from the left and appending each popped node's
children).  Each step emits exactly one node, so `root.size` steps of fuel
compute the whole traversal. -/
def bfs : Nat → List PyNode → List PyNode
  | 0, _ => []
  | fuel + 1, queue =>
    match queue with
    | [] => []
    | n :: rest => n :: bfs fuel (rest ++ n.pychildren.toList)

def walk (root : PyNode) : List PyNode := bfs root.size [root]

/-- Model of `child.func.id if isinstance(child.func, ast.Name) else child.func.attr`
(src/code_to_pdf.py:110-114): a callee that is neither a `Name` nor an
`Attribute` has no `.attr` field, so the attribute access raises
`AttributeError`. -/
def callee_name : PyCallee → Except PyExc (List Char)
  | .name id => .ok id
  | .attr a => .ok a
  | .subscriptExpr => .error .attributeError

/-- The `for child in ast.walk(node)` call-collection loop
(src/code_to_pdf.py:106-115): over the body subtree in walk order, add each
call's callee name to the helper set; a malformed callee raises. -/
def collect_calls : List PyNode → List (List Char) →
    Except PyExc (List (List Char))
  | [], helpers => .ok helpers
  | n :: rest, helpers =>
    match n with
    | .call f _ =>
      match callee_name f with
      | .error e => .error e
      | .ok nm => collect_calls rest (sadd helpers nm)
    | _ => collect_calls rest helpers

/-- The resolver state threaded through `get_python_func`: the snippet
accumulator and the (mutated-in-place) `helpers` and `processed` sets. -/
structure PyState where
  snippet : List Char
  helpers : List (List Char)
  processed : List (List Char)
deriving DecidableEq

/-- The `while helpers:` loop of `get_python_func` (src/code_to_pdf.py:117-123)
with the recursive call abstracted as `resolve` (it is `get_python_func` at
one less fuel) and `set.pop()` modelled by the `choice` index. -/
def py_while (choice : List (List Char) → Nat)
    (resolve : List Char → List (List Char) → List (List Char) →
      Except PyExc (List Char × List (List Char) × List (List Char))) :
    Nat → PyState → Except PyExc PyState
  | 0, st => .ok st
  | wfuel + 1, st =>
    match st.helpers with
    | [] => .ok st
    | _ =>
      let i := choice st.helpers % st.helpers.length
      let helper := st.helpers.getD i []
      let rest := st.helpers.eraseIdx i
      if helper ∈ st.processed then
        py_while choice resolve wfuel ⟨st.snippet, rest, st.processed⟩
      else
        match resolve helper rest st.processed with
        | .error e => .error e
        | .ok (s2, h2, p2) =>
          py_while choice resolve wfuel ⟨st.snippet ++ nl1 ++ s2, h2, p2⟩

/-- The `for node in ast.walk(tree)` loop of `get_python_func`
(src/code_to_pdf.py:100-123): every `FunctionDef` whose name is the target
appends its stripped source segment, records the name as processed, collects
the calls of its whole body subtree, and drains the helper worklist. -/
def py_for (choice : List (List Char) → Nat)
    (resolve : List Char → List (List Char) → List (List Char) →
      Except PyExc (List Char × List (List Char) × List (List Char)))
    (wfuel : Nat) (func_name : List Char) :
    List PyNode → PyState → Except PyExc PyState
  | [], st => .ok st
  | n :: rest, st =>
    match n with
    | .functionDef nm seg body =>
      if nm = func_name then
        let st1 : PyState :=
          ⟨st.snippet ++ pystrip seg, st.helpers, sadd st.processed nm⟩
        match collect_calls (walk (.functionDef nm seg body)) st1.helpers with
        | .error e => .error e
        | .ok h1 =>
          match py_while choice resolve wfuel ⟨st1.snippet, h1, st1.processed⟩ with
          | .error e => .error e
          | .ok st2 => py_for choice resolve wfuel func_name rest st2
      else py_for choice resolve wfuel func_name rest st
    | _ => py_for choice resolve wfuel func_name rest st

/-- Model of `get_python_func` (src/code_to_pdf.py:92-125).  The Python function
re-parses `content` at every recursive call, always yielding the same
`tree`, so the model passes the tree directly.  Fuel bounds the recursion
depth and the worklist iterations; `find_snippet` supplies
`2 * tree.size + 2`, which exceeds the total number of pops (one per name
ever added, at most one per `Call` node) plus the recursion depth (at most
one level per `FunctionDef`). -/
def get_python_func (choice : List (List Char) → Nat) :
    Nat → PyNode → List Char → List (List Char) → List (List Char) →
    Except PyExc (List Char × List (List Char) × List (List Char))
  | 0, _, _, helpers, processed => .ok ([], helpers, processed)
  | fuel + 1, tree, func_name, helpers, processed =>
    match py_for choice
        (fun g h p => get_python_func choice fuel tree g h p)
        fuel func_name (walk tree) ⟨[], helpers, processed⟩ with
    | .error e => .error e
    | .ok st => .ok (st.snippet, st.helpers, st.processed)

/-! ## Pipeline: `find_snippet` and the `main` loop
(src/code_to_pdf.py:128-151,185-193; src/config.py). -/
inductive Lang where
  | cpp
  | python
deriving DecidableEq

/-- The mutable module-level configuration (src/config.py).  `find_snippet`
and `get_cpp_func` bind their local `processed` name to the very
`config.ignore_helpers` set object and mutate it in place, so the set is
carried through the batch as state. -/
structure Config where
  language : Lang
  function_name : List Char
  ignore_helpers : List (List Char)
deriving DecidableEq

/-- One input file together with what the external parsers produce for it:
the clang translation-unit cursor and the `ast.parse` result (`none` models
a `SyntaxError` raised on malformed Python source). -/
structure SourceFile where
  content : List Char
  ctree : CNode
  ptree : Option PyNode
deriving DecidableEq

/-- Model of `find_snippet` (src/code_to_pdf.py:128-151): dispatch on the configured
language, post-process a non-empty snippet with
`strip().splitlines()` + `unindent`, and return the (aliased, mutated)
`config.ignore_helpers` in the updated configuration.  A Python parse
failure propagates as an uncaught exception — there is no `try` in the
source. -/
def find_snippet (choice : List (List Char) → Nat) (cfg : Config)
    (f : SourceFile) : Except PyExc (List (List Char)) × Config :=
  match cfg.language with
  | .cpp =>
    match get_cpp_func choice f.ctree f.content cfg.function_name
        cfg.ignore_helpers with
    | (snippet, processed) =>
      let lines := if snippet = [] then [] else unindent (splitlines (pystrip snippet))
      (.ok lines, { cfg with ignore_helpers := processed })
  | .python =>
    match f.ptree with
    | none => (.error .parseError, cfg)
    | some tree =>
      match get_python_func choice (2 * tree.size + 2) tree cfg.function_name
          [] cfg.ignore_helpers with
      | .error e => (.error e, cfg)
      | .ok (snippet, _, processed) =>
        let lines := if snippet = [] then [] else unindent (splitlines (pystrip snippet))
        (.ok lines, { cfg with ignore_helpers := processed })

/-- The `for fname in files` loop of `main` (src/code_to_pdf.py:185-193),
at the snippet level: collect the per-file code-line lists that get written
(an empty snippet is skipped with only a warning); an uncaught exception
aborts the rest of the batch. -/
def main_loop (choice : List (List Char) → Nat) :
    Config → List SourceFile → Except PyExc (List (List (List Char)))
  | _, [] => .ok []
  | cfg, f :: rest =>
    match find_snippet choice cfg f with
    | (.error e, _) => .error e
    | (.ok code, cfg') =>
      if code = [] then main_loop choice cfg' rest
      else
        match main_loop choice cfg' rest with
        | .error e => .error e
        | .ok outs => .ok (code :: outs)

/-! ## Concrete C-family fixtures.  Braces inside the source strings are
written `\x7b`/`\x7d`. -/
def printName : List Char := "print_report".toList

def fooName : List Char := "foo".toList

def barName : List Char := "bar".toList

def c3Print : List Char := "void print_report() \x7b foo(); \x7d".toList

def c3Foo : List Char := "void foo() \x7b bar(); \x7d".toList

def c3Bar : List Char := "void bar() \x7b \x7d".toList

def c3Content : List Char := c3Print ++ '\n' :: (c3Foo ++ '\n' :: c3Bar)

/-- A compound statement whose direct children are the given call cursors. -/
def compoundOf (calls : List (List Char)) : CForest :=
  .cons (.mk .COMPOUND_STMT [] false 0 0
    (calls.foldr (fun nm acc => .cons (.mk .CALL_EXPR nm false 0 0 .nil) acc) .nil))
    .nil

/-- The clang translation unit for `c3Content`: three function definitions,
`print_report` calling `foo`, `foo` calling `bar`, `bar` empty. -/
def c3Tree : CNode :=
  .mk .OTHER [] false 0 0
    (.cons (.mk .FUNCTION_DECL printName true 0 c3Print.length
        (compoundOf [fooName]))
      (.cons (.mk .FUNCTION_DECL fooName true (c3Print.length + 1)
          (c3Print.length + 1 + c3Foo.length) (compoundOf [barName]))
        (.cons (.mk .FUNCTION_DECL barName true (c3Print.length + 1 + c3Foo.length + 1)
            (c3Print.length + 1 + c3Foo.length + 1 + c3Bar.length) (compoundOf []))
          .nil)))

def c3File : SourceFile := ⟨c3Content, c3Tree, none⟩

def cfgCpp : Config := ⟨.cpp, printName, []⟩

/-- A fixed pop order: always remove the set's first element. -/
def choice0 : List (List Char) → Nat := fun _ => 0

/-- A pop order that removes the second element when there is one. -/
def choice1 : List (List Char) → Nat := fun _ => 1

def tName : List Char := "t".toList

def aName : List Char := "a".toList

def bName : List Char := "b".toList

def c5T : List Char := "void t() \x7b a(); b(); \x7d".toList

def c5A : List Char := "void a() \x7b \x7d".toList

def c5B : List Char := "void b() \x7b \x7d".toList

def c5Content : List Char := c5T ++ '\n' :: (c5A ++ '\n' :: c5B)

/-- Translation unit for `c5Content`: `t` calls `a` and `b`, both defined
with empty bodies. -/
def c5Tree : CNode :=
  .mk .OTHER [] false 0 0
    (.cons (.mk .FUNCTION_DECL tName true 0 c5T.length (compoundOf [aName, bName]))
      (.cons (.mk .FUNCTION_DECL aName true (c5T.length + 1)
          (c5T.length + 1 + c5A.length) (compoundOf []))
        (.cons (.mk .FUNCTION_DECL bName true (c5T.length + 1 + c5A.length + 1)
            (c5T.length + 1 + c5A.length + 1 + c5B.length) (compoundOf []))
          .nil)))

/-- The snippet computed before the helper loop runs: the extract of the
bounds that the initial `clang_find_function` call returns
(src/code_to_pdf.py:74-79). -/
def cpp_target_block (tree : CNode) (content : List Char)
    (func_name : List Char) (ignore_helpers : List (List Char)) : List Char :=
  match (clang_find_function tree func_name [] ignore_helpers).1 with
  | some (b0, b1) => extract content b0 b1
  | none => []

/-- The match test of the Python `for` loop
(`isinstance(node, ast.FunctionDef) and node.name == func_name`). -/
def isMatchDef (fn : List Char) (n : PyNode) : Bool :=
  match n with
  | .functionDef nm _ _ => nm == fn
  | _ => false

/-- The `ast.get_source_segment` text of a node (meaningful for
`FunctionDef` nodes). -/
def segOf : PyNode → List Char
  | .functionDef _ seg _ => seg
  | _ => []

/-! ## Concrete Python fixtures. -/
def fN : List Char := "f".toList

def gN : List Char := "g".toList

/-- Segment `def f(): return 1` (first of two same-named definitions). -/
def seg1 : List Char := "def f():\n    return 1".toList

/-- Segment `def f(): return 2` (second definition sharing the name `f`). -/
def seg2 : List Char := "def f():\n    return 2".toList

/-- A module with two top-level definitions both named `f`. -/
def dupTree : PyNode :=
  .other (.cons (.functionDef fN seg1 (.cons (.other .nil) .nil))
    (.cons (.functionDef fN seg2 (.cons (.other .nil) .nil)) .nil))

def segF9 : List Char := "def f():\n    g()".toList

def segG9 : List Char := "def g():\n    return 0".toList

/-- A module where `f` calls the helper `g`. -/
def callTree : PyNode :=
  .other
    (.cons (.functionDef fN segF9
        (.cons (.other (.cons (.call (.name gN) .nil) .nil)) .nil))
      (.cons (.functionDef gN segG9 (.cons (.other .nil) .nil)) .nil))

def segSub : List Char := "def f():\n    handlers[0]()".toList

/-- A module where `f` contains the call `handlers[0]()` — the callee is a
`Subscript`, neither `Name` nor `Attribute`. -/
def subTree : PyNode :=
  .other (.cons (.functionDef fN segSub
      (.cons (.other (.cons (.call .subscriptExpr .nil) .nil)) .nil)) .nil)

def dummyCTree : CNode := .mk .OTHER [] false 0 0 .nil

def cfgPy : Config := ⟨.python, fN, []⟩

/-- A Python file whose source does not parse (`ast.parse` raises). -/
def badPy : SourceFile := ⟨"def f(:".toList, dummyCTree, none⟩

def goodTree : PyNode :=
  .other (.cons (.functionDef fN seg1 (.cons (.other .nil) .nil)) .nil)

/-- A well-formed Python file defining the target `f`. -/
def goodPy : SourceFile := ⟨seg1, dummyCTree, some goodTree⟩

def nfTree : PyNode :=
  .other (.cons (.functionDef gN segG9 (.cons (.other .nil) .nil)) .nil)

/-- A well-formed Python file that does not define the target `f`. -/
def nfPy : SourceFile := ⟨segG9, dummyCTree, some nfTree⟩

/-- A stand-in for the recursive resolver used to exercise `py_while`
directly: resolving `g` yields `g`'s segment. -/
def pyResolveG : List Char → List (List Char) → List (List Char) →
    Except PyExc (List Char × List (List Char) × List (List Char)) :=
  fun g h p => .ok (segG9, h, sadd p g)

/-! ## Theorems. -/

theorem leadingSpaces_le_length (l : List Char) : leadingSpaces l ≤ l.length := by
  induction l with
  | nil => simp [leadingSpaces]
  | cons c rest ih =>
    simp only [leadingSpaces, List.length_cons]
    split <;> omega

theorem leadingSpaces_pos_cons {l : List Char} (h : 0 < leadingSpaces l) :
    ∃ t, l = ' ' :: t := by
  cases l with
  | nil => simp [leadingSpaces] at h
  | cons c rest =>
    refine ⟨rest, ?_⟩
    simp only [leadingSpaces] at h
    by_cases hc : c = ' '
    · rw [hc]
    · simp [hc] at h

theorem leadingSpaces_cons_space (t : List Char) :
    leadingSpaces (' ' :: t) = leadingSpaces t + 1 := by
  simp [leadingSpaces]

theorem map_drop_zero (s : List (List Char)) : s.map (List.drop 0) = s := by
  induction s with
  | nil => rfl
  | cons a t ih => simp [ih]

/-- The dedent loop removes exactly `N` spaces under the claim's hypotheses
(core lemma, fuel-generic). -/
theorem unindentGo_exact (N : Nat) :
    ∀ (fuel : Nat) (s : List (List Char)), N ≤ fuel → s ≠ [] →
      (∀ l ∈ s, N ≤ leadingSpaces l) →
      (∃ l ∈ s, leadingSpaces l = N ∧ N < l.length) →
      unindentGo fuel s = s.map (List.drop N) := by
  induction N with
  | zero =>
    intro fuel s _ _ _ hex
    obtain ⟨l, hl, hzero, hlen⟩ := hex
    have hfalse : allStartSpace s = false := by
      cases l with
      | nil => simp at hlen
      | cons c t =>
        have hc : c ≠ ' ' := by
          intro hc
          rw [hc] at hzero
          simp [leadingSpaces_cons_space] at hzero
        simp only [allStartSpace, List.all_eq_true, not_forall]
        rw [List.all_eq_false]
        exact ⟨c :: t, hl, by simp [hc]⟩
    cases fuel with
    | zero =>
      simp only [unindentGo]
      exact (map_drop_zero s).symm
    | succ f =>
      simp only [unindentGo, hfalse, Bool.false_eq_true, if_false]
      exact (map_drop_zero s).symm
  | succ N ih =>
    intro fuel s hfuel hne hall hex
    cases fuel with
    | zero => omega
    | succ f =>
      have htrue : allStartSpace s = true := by
        rw [allStartSpace, List.all_eq_true]
        intro l hl
        have h1 : 0 < leadingSpaces l := lt_of_lt_of_le (Nat.succ_pos N) (hall l hl)
        obtain ⟨t, ht⟩ := leadingSpaces_pos_cons h1
        simp [ht]
      have hstep : unindentGo (f + 1) s = unindentGo f (s.map List.tail) := by
        simp [unindentGo, htrue]
      rw [hstep]
      have hres : unindentGo f (s.map List.tail) =
          (s.map List.tail).map (List.drop N) := by
        apply ih f (s.map List.tail) (by omega)
        · simp [hne]
        · intro l' hl'
          obtain ⟨l, hl, rfl⟩ := List.mem_map.mp hl'
          have h1 : 0 < leadingSpaces l := lt_of_lt_of_le (Nat.succ_pos N) (hall l hl)
          obtain ⟨t, rfl⟩ := leadingSpaces_pos_cons h1
          have := hall _ hl
          rw [leadingSpaces_cons_space] at this
          simpa using by omega
        · obtain ⟨l, hl, hN, hlen⟩ := hex
          have h1 : 0 < leadingSpaces l := by omega
          obtain ⟨t, rfl⟩ := leadingSpaces_pos_cons h1
          rw [leadingSpaces_cons_space] at hN
          refine ⟨t, List.mem_map.mpr ⟨' ' :: t, hl, rfl⟩, by omega, ?_⟩
          simp only [List.length_cons] at hlen
          omega
      rw [hres, List.map_map]
      apply List.map_congr_left
      intro l _
      show List.drop N l.tail = List.drop (N + 1) l
      rw [← List.drop_one, List.drop_drop]
      congr 1
      omega

/-- Claim C4 — Dedent exactness: for a non-empty list of lines with no empty line,
where every line has at least `N` leading spaces and some line has exactly
`N` leading spaces followed by a non-space character, `unindent` removes
exactly `N` leading spaces from every line. -/
theorem unindent_removes_exactly_N (s : List (List Char)) (N : Nat)
    (hne : s ≠ []) (hnoempty : ∀ l ∈ s, l ≠ [])
    (hall : ∀ l ∈ s, N ≤ leadingSpaces l)
    (hex : ∃ l ∈ s, leadingSpaces l = N ∧ N < l.length) :
    unindent s = s.map (List.drop N) := by
  rw [unindent]
  apply unindentGo_exact N _ s _ hne hall hex
  cases s with
  | nil => exact absurd rfl hne
  | cons l rest =>
    simp only [List.headD_cons]
    exact le_trans (hall l (by simp)) (leadingSpaces_le_length l)

/-- Witness for C4 at a concrete input: the block `["  ab", "   c"]` has
common indentation 2 and dedents to `["ab", " c"]`. -/
theorem unindent_removes_exactly_N_witness :
    unindent [[' ', ' ', 'a', 'b'], [' ', ' ', ' ', 'c']] =
      [[' ', ' ', 'a', 'b'], [' ', ' ', ' ', 'c']].map (List.drop 2) :=
  unindent_removes_exactly_N [[' ', ' ', 'a', 'b'], [' ', ' ', ' ', 'c']] 2
    (by decide) (by decide) (by decide) (by decide)

/-- Claim C7 — Font-size formula: for a non-empty list of code lines whose longest
line is non-empty, `calc_fontsize` returns
`min (8.5·72 / (n·2)) (7·72 / (L·0.6))` where `n` is the line count and `L`
the longest line's character count. -/
theorem calc_fontsize_formula (code : List (List Char))
    (hn : 0 < code.length) (hL : 0 < maxLen code) :
    calc_fontsize code =
      min ((8.5 * 72 : ℚ) / ((code.length : ℚ) * 2))
          ((7 * 72 : ℚ) / ((maxLen code : ℚ) * 0.6)) := by
  rfl

/-- Witness for C7 at the concrete one-line input `["ab"]`. -/
theorem calc_fontsize_formula_witness :
    calc_fontsize [['a', 'b']] =
      min ((8.5 * 72 : ℚ) / (((([['a', 'b']] : List (List Char)).length) : ℚ) * 2))
          ((7 * 72 : ℚ) / ((maxLen [['a', 'b']] : ℚ) * 0.6)) :=
  calc_fontsize_formula [['a', 'b']] (by decide) (by decide)

/-- Claim C8 — Monotonicity of `calc_fontsize`: holding the longest-line length
fixed, more lines never increase the font size; holding the line count
fixed, a longer longest line never increases the font size. -/
theorem calc_fontsize_monotone :
    (∀ c1 c2 : List (List Char), 0 < c1.length → 0 < maxLen c1 →
      c1.length ≤ c2.length → maxLen c2 = maxLen c1 →
      calc_fontsize c2 ≤ calc_fontsize c1) ∧
    (∀ c1 c2 : List (List Char), 0 < c1.length → 0 < maxLen c1 →
      c1.length = c2.length → maxLen c1 ≤ maxLen c2 →
      calc_fontsize c2 ≤ calc_fontsize c1) := by
  have key : ∀ (a b b' : ℚ), 0 < a → 0 < b → b ≤ b' → a / b' ≤ a / b := by
    intro a b b' ha hb hbb
    apply div_le_div_of_nonneg_left (le_of_lt ha) hb hbb
  constructor
  · intro c1 c2 hn hL hlen hmax
    unfold calc_fontsize
    simp only [hmax]
    apply min_le_min _ le_rfl
    apply key
    · norm_num [MAX_HEIGHT_IN, PT_PER_INCH]
    · unfold LINE_SPACE_SCALE
      positivity
    · unfold LINE_SPACE_SCALE
      have : (c1.length : ℚ) ≤ (c2.length : ℚ) := by exact_mod_cast hlen
      nlinarith
  · intro c1 c2 hn hL hlen hmax
    unfold calc_fontsize
    simp only [hlen]
    apply min_le_min le_rfl
    apply key
    · norm_num [MAX_WIDTH_IN, PT_PER_INCH]
    · unfold BOX_WIDTH_EM
      have : (0 : ℚ) < (maxLen c1 : ℚ) := by exact_mod_cast hL
      nlinarith
    · unfold BOX_WIDTH_EM
      have : (maxLen c1 : ℚ) ≤ (maxLen c2 : ℚ) := by exact_mod_cast hmax
      nlinarith

/-- Witness for C8: both monotonicity directions at concrete inputs
(`["ab"]` versus `["ab","ab"]`, and `["ab"]` versus `["abc"]`). -/
theorem calc_fontsize_monotone_witness :
    calc_fontsize [['a', 'b'], ['a', 'b']] ≤ calc_fontsize [['a', 'b']] ∧
    calc_fontsize [['a', 'b', 'c']] ≤ calc_fontsize [['a', 'b']] :=
  ⟨calc_fontsize_monotone.1 [['a', 'b']] [['a', 'b'], ['a', 'b']]
      (by decide) (by decide) (by decide) (by decide),
   calc_fontsize_monotone.2 [['a', 'b']] [['a', 'b', 'c']]
      (by decide) (by decide) (by decide) (by decide)⟩

theorem find?_append_some {α : Type} (p : α → Bool) (l1 l2 : List α) (a : α)
    (h : l1.find? p = some a) : (l1 ++ l2).find? p = some a := by
  induction l1 with
  | nil => simp [List.find?] at h
  | cons x rest ih =>
    by_cases hx : p x
    · rw [List.find?_cons_of_pos _ hx] at h
      simpa [List.find?_cons_of_pos _ hx] using h
    · rw [List.find?_cons_of_neg _ (by simpa using hx)] at h
      simpa [List.find?_cons_of_neg _ (by simpa using hx)] using ih h

theorem find?_append_none {α : Type} (p : α → Bool) (l1 l2 : List α)
    (h : l1.find? p = none) : (l1 ++ l2).find? p = l2.find? p := by
  induction l1 with
  | nil => simp
  | cons x rest ih =>
    by_cases hx : p x
    · rw [List.find?_cons_of_pos _ hx] at h
      exact absurd h (by simp)
    · rw [List.find?_cons_of_neg _ (by simpa using hx)] at h
      simpa [List.find?_cons_of_neg _ (by simpa using hx)] using ih h

mutual
/-- The bounds computed by `clang_find_function` are the extent of the first
matching definition in depth-first pre-order, whatever the worklist state. -/
theorem clang_find_function_dfs (node : CNode) (fn : List Char)
    (h p : List (List Char)) :
    (clang_find_function node fn h p).1 =
      ((dfs_preorder node).find? (isTargetDef fn)).map extentOf := by
  cases node with
  | mk k sp d s e cs =>
    by_cases hm : isTargetDef fn (.mk k sp d s e cs)
    · rw [clang_find_function, if_pos hm, dfs_preorder,
        List.find?_cons_of_pos _ hm]
      rfl
    · rw [clang_find_function, if_neg hm, dfs_preorder,
        List.find?_cons_of_neg _ (by simpa using hm)]
      exact clang_find_forest_dfs cs fn h p

theorem clang_find_forest_dfs (cs : CForest) (fn : List Char)
    (h p : List (List Char)) :
    (clang_find_forest cs fn h p).1 =
      ((dfs_preorder_forest cs).find? (isTargetDef fn)).map extentOf := by
  cases cs with
  | nil => simp [clang_find_forest, dfs_preorder_forest, List.find?]
  | cons c rest =>
    rw [clang_find_forest, dfs_preorder_forest]
    have hc := clang_find_function_dfs c fn h p
    match hcc : clang_find_function c fn h p with
    | (some b, h2, p2) =>
      rw [hcc] at hc
      match hfind : (dfs_preorder c).find? (isTargetDef fn) with
      | some m =>
        rw [hfind] at hc
        rw [find?_append_some _ _ _ m hfind]
        simpa using hc
      | none => rw [hfind] at hc; simp at hc
    | (none, h2, p2) =>
      rw [hcc] at hc
      match hfind : (dfs_preorder c).find? (isTargetDef fn) with
      | some m => rw [hfind] at hc; simp at hc
      | none =>
        rw [find?_append_none _ _ _ hfind]
        exact clang_find_forest_dfs rest fn h2 p2
end

/-- The `while helpers:` loop of `get_cpp_func` only ever appends to the
snippet it is given. -/
theorem cpp_while_appends (choice : List (List Char) → Nat)
    (tree : CNode) (content : List Char) :
    ∀ (fuel : Nat) (h p : List (List Char)) (s : List Char),
    ∃ t, (cpp_while choice tree content fuel h p s).1 = s ++ t := by
  intro fuel
  induction fuel with
  | zero => intro h p s; exact ⟨[], by simp [cpp_while]⟩
  | succ f ih =>
    intro h p s
    match h with
    | [] => exact ⟨[], by simp [cpp_while]⟩
    | x :: rest =>
      simp only [cpp_while]
      by_cases hmem :
          (x :: rest).getD (choice (x :: rest) % (x :: rest).length) [] ∈ p
      · simp only [hmem, if_true]
        exact ih _ _ _
      · simp only [hmem, if_false]
        match clang_find_function tree
            ((x :: rest).getD (choice (x :: rest) % (x :: rest).length) [])
            ((x :: rest).eraseIdx (choice (x :: rest) % (x :: rest).length)) p with
        | (some (b0, b1), h2, p2) =>
          obtain ⟨t2, ht2⟩ := ih h2
            (sadd p2 ((x :: rest).getD (choice (x :: rest) % (x :: rest).length) []))
            (s ++ nl2 ++ extract content b0 b1)
          exact ⟨nl2 ++ extract content b0 b1 ++ t2, by
            simpa [List.append_assoc] using ht2⟩
        | (none, h2, p2) =>
          exact ih h2
            (sadd p2 ((x :: rest).getD (choice (x :: rest) % (x :: rest).length) [])) s

/-- Claim C3 — Two-hop transitive helper inclusion: on the input file
`void print_report() { foo(); }` / `void foo() { bar(); }` / `void bar() { }`
with target `print_report` and an empty ignore set, the resolved C++ snippet
is the `print_report`, `foo` and `bar` definitions in that order — `bar` is
included because the shallow call scan is applied afresh to `foo`.  The pop
order is irrelevant here (the worklist is a singleton at every pop), so the
result holds for every `choice`. -/
theorem cpp_two_hop_includes_bar (choice : List (List Char) → Nat) :
    get_cpp_func choice c3Tree c3Content printName [] =
      (c3Print ++ nl2 ++ c3Foo ++ nl2 ++ c3Bar, [printName, fooName, barName]) := by
  simp +decide [get_cpp_func, clang_find_function, clang_find_forest, cpp_while,
    Nat.mod_one, isTargetDef, collect_compound_calls, sadd, CForest.toList,
    CNode.size, CForest.size, extract, c3Tree, c3Content, c3Print, c3Foo, c3Bar,
    printName, fooName, barName, compoundOf, nl2, CNode.kind, CNode.spelling,
    CNode.is_definition, CNode.extentStart, CNode.extentEnd, CNode.children]

/-- Counterexample for C5 — the pipeline is not run-to-run deterministic: on
`void t() { a(); b(); }` with both helpers defined, two legitimate
`set.pop()` orders (as produced by different hash seeds in different runs)
yield different snippets, hence different output bytes. -/
theorem cpp_two_runs_differ :
    get_cpp_func choice0 c5Tree c5Content tName [] ≠
      get_cpp_func choice1 c5Tree c5Content tName [] ∧
    get_cpp_func choice0 c5Tree c5Content tName [] =
      (c5T ++ nl2 ++ c5A ++ nl2 ++ c5B, [tName, aName, bName]) ∧
    get_cpp_func choice1 c5Tree c5Content tName [] =
      (c5T ++ nl2 ++ c5B ++ nl2 ++ c5A, [tName, bName, aName]) := by
  refine ⟨?_, by decide, by decide⟩
  decide

/-- Claim C5 amended — what is deterministic across runs: the snippet always
starts with the same target block (the extract of the first matching
definition), for any two pop orders; only the helper blocks after it depend
on the set-iteration order. -/
theorem get_cpp_func_same_target_block (choice1 choice2 : List (List Char) → Nat)
    (tree : CNode) (content : List Char) (func_name : List Char)
    (ignore_helpers : List (List Char)) :
    ∃ r1 r2,
      (get_cpp_func choice1 tree content func_name ignore_helpers).1 =
        cpp_target_block tree content func_name ignore_helpers ++ r1 ∧
      (get_cpp_func choice2 tree content func_name ignore_helpers).1 =
        cpp_target_block tree content func_name ignore_helpers ++ r2 := by
  have key : ∀ (choice : List (List Char) → Nat), ∃ r,
      (get_cpp_func choice tree content func_name ignore_helpers).1 =
        cpp_target_block tree content func_name ignore_helpers ++ r := by
    intro choice
    rw [get_cpp_func, cpp_target_block]
    match clang_find_function tree func_name [] ignore_helpers with
    | (some (b0, b1), h, p) => exact cpp_while_appends choice tree content _ h p _
    | (none, h, p) =>
      obtain ⟨t, ht⟩ := cpp_while_appends choice tree content
        (h.length + tree.size + 1) h p []
      exact ⟨t, by simpa using ht⟩
  obtain ⟨r1, h1⟩ := key choice1
  obtain ⟨r2, h2⟩ := key choice2
  exact ⟨r1, r2, h1, h2⟩

/-- Claim C1 — the Processed Set is NOT local to one file's pass:
`processed = config.ignore_helpers` aliases the configuration set, which
`get_cpp_func` then mutates, so names extracted for one file suppress helper
extraction in every later file.  Resolving `c3File` twice in one batch gives
a second snippet without `foo`/`bar`, while a fresh resolution of the same
file includes them. -/
theorem processed_set_shared_across_files :
    (find_snippet choice0
        (find_snippet choice0 cfgCpp c3File).2 c3File).1 ≠
      (find_snippet choice0 cfgCpp c3File).1 ∧
    (find_snippet choice0 cfgCpp c3File).1 =
      .ok [c3Print, [], c3Foo, [], c3Bar] ∧
    (find_snippet choice0
        (find_snippet choice0 cfgCpp c3File).2 c3File).1 =
      .ok [c3Print] := by
  refine ⟨?_, by decide, by decide⟩
  decide

/-- The C++ helper loop appends each successfully resolved helper's extract
preceded by the `"\n\n"` separator and nothing else. -/
theorem cpp_while_parts (choice : List (List Char) → Nat)
    (tree : CNode) (content : List Char) :
    ∀ (fuel : Nat) (h p : List (List Char)) (s : List Char),
    ∃ parts : List (List Char),
      (cpp_while choice tree content fuel h p s).1 =
        s ++ (parts.map (fun q => nl2 ++ q)).flatten := by
  intro fuel
  induction fuel with
  | zero => intro h p s; exact ⟨[], by simp [cpp_while]⟩
  | succ f ih =>
    intro h p s
    match h with
    | [] => exact ⟨[], by simp [cpp_while]⟩
    | x :: rest =>
      simp only [cpp_while]
      by_cases hmem :
          (x :: rest).getD (choice (x :: rest) % (x :: rest).length) [] ∈ p
      · simp only [hmem, if_true]
        exact ih _ _ _
      · simp only [hmem, if_false]
        match clang_find_function tree
            ((x :: rest).getD (choice (x :: rest) % (x :: rest).length) [])
            ((x :: rest).eraseIdx (choice (x :: rest) % (x :: rest).length)) p with
        | (some (b0, b1), h2, p2) =>
          obtain ⟨parts2, ht2⟩ := ih h2
            (sadd p2 ((x :: rest).getD (choice (x :: rest) % (x :: rest).length) []))
            (s ++ nl2 ++ extract content b0 b1)
          exact ⟨extract content b0 b1 :: parts2, by
            simpa [List.append_assoc] using ht2⟩
        | (none, h2, p2) =>
          exact ih h2
            (sadd p2 ((x :: rest).getD (choice (x :: rest) % (x :: rest).length) [])) s

/-- The Python helper loop appends each recursively resolved helper snippet
preceded by the single-newline `"\n"` separator and nothing else. -/
theorem py_while_parts (choice : List (List Char) → Nat)
    (resolve : List Char → List (List Char) → List (List Char) →
      Except PyExc (List Char × List (List Char) × List (List Char))) :
    ∀ (wfuel : Nat) (st st' : PyState),
    py_while choice resolve wfuel st = .ok st' →
    ∃ parts : List (List Char),
      st'.snippet = st.snippet ++ (parts.map (fun q => nl1 ++ q)).flatten := by
  intro wfuel
  induction wfuel with
  | zero =>
    intro st st' hok
    simp only [py_while] at hok
    cases hok
    exact ⟨[], by simp⟩
  | succ f ih =>
    intro st st' hok
    match hh : st.helpers with
    | [] =>
      rw [py_while, hh] at hok
      cases hok
      exact ⟨[], by simp⟩
    | x :: rest =>
      rw [py_while, hh] at hok
      by_cases hmem :
          (x :: rest).getD (choice (x :: rest) % (x :: rest).length) [] ∈ st.processed
      · simp only [hmem, if_true] at hok
        obtain ⟨parts, hp⟩ := ih _ _ hok
        exact ⟨parts, hp⟩
      · simp only [hmem, if_false] at hok
        match hres : resolve
            ((x :: rest).getD (choice (x :: rest) % (x :: rest).length) [])
            ((x :: rest).eraseIdx (choice (x :: rest) % (x :: rest).length))
            st.processed with
        | .error e => rw [hres] at hok; cases hok
        | .ok (s2, h2, p2) =>
          rw [hres] at hok
          obtain ⟨parts2, hp2⟩ := ih _ _ hok
          exact ⟨s2 :: parts2, by simpa [List.append_assoc] using hp2⟩

/-- The Python `for` loop only ever appends to the snippet accumulator. -/
theorem py_for_appends (choice : List (List Char) → Nat)
    (resolve : List Char → List (List Char) → List (List Char) →
      Except PyExc (List Char × List (List Char) × List (List Char)))
    (wfuel : Nat) (fn : List Char) :
    ∀ (ns : List PyNode) (st st' : PyState),
    py_for choice resolve wfuel fn ns st = .ok st' →
    ∃ r, st'.snippet = st.snippet ++ r := by
  intro ns
  induction ns with
  | nil =>
    intro st st' hok
    simp only [py_for] at hok
    cases hok
    exact ⟨[], by simp⟩
  | cons n rest ih =>
    intro st st' hok
    match n with
    | .functionDef nm seg body =>
      simp only [py_for] at hok
      by_cases hnm : nm = fn
      · simp only [hnm, if_true] at hok
        match hcc : collect_calls (walk (.functionDef fn seg body)) st.helpers with
        | .error e =>
          simp only [hcc] at hok
          simp at hok
        | .ok h1 =>
          simp only [hcc] at hok
          match hw : py_while choice resolve wfuel
              ⟨st.snippet ++ pystrip seg, h1, sadd st.processed fn⟩ with
          | .error e =>
            simp only [hw] at hok
            simp at hok
          | .ok st2 =>
            simp only [hw] at hok
            obtain ⟨parts, hp⟩ := py_while_parts choice resolve wfuel _ _ hw
            obtain ⟨r2, hr2⟩ := ih _ _ hok
            refine ⟨pystrip seg ++ (parts.map (fun q => nl1 ++ q)).flatten ++ r2, ?_⟩
            rw [hr2, hp]
            simp [List.append_assoc]
      · simp only [hnm, if_false] at hok
        exact ih _ _ hok
    | .call f cs =>
      simp only [py_for] at hok
      exact ih _ _ hok
    | .other cs =>
      simp only [py_for] at hok
      exact ih _ _ hok

/-- If some node of the scanned list matches, the snippet accumulated by the
Python `for` loop continues with the first match's stripped segment. -/
theorem py_for_first_match (choice : List (List Char) → Nat)
    (resolve : List Char → List (List Char) → List (List Char) →
      Except PyExc (List Char × List (List Char) × List (List Char)))
    (wfuel : Nat) (fn : List Char) :
    ∀ (ns : List PyNode) (st st' : PyState) (m : PyNode),
    ns.find? (isMatchDef fn) = some m →
    py_for choice resolve wfuel fn ns st = .ok st' →
    ∃ r, st'.snippet = st.snippet ++ pystrip (segOf m) ++ r := by
  intro ns
  induction ns with
  | nil => intro st st' m hfind; simp [List.find?] at hfind
  | cons n rest ih =>
    intro st st' m hfind hok
    by_cases hmatch : isMatchDef fn n
    · rw [List.find?_cons_of_pos _ hmatch] at hfind
      have hm : n = m := by simpa using hfind
      subst hm
      match n, hmatch with
      | .functionDef nm seg body, hmatch =>
        have hnm : nm = fn := by simpa [isMatchDef] using hmatch
        simp only [py_for] at hok
        simp only [hnm, if_true] at hok
        match hcc : collect_calls (walk (.functionDef fn seg body)) st.helpers with
        | .error e =>
          simp only [hcc] at hok
          simp at hok
        | .ok h1 =>
          simp only [hcc] at hok
          match hw : py_while choice resolve wfuel
              ⟨st.snippet ++ pystrip seg, h1, sadd st.processed fn⟩ with
          | .error e =>
            simp only [hw] at hok
            simp at hok
          | .ok st2 =>
            simp only [hw] at hok
            obtain ⟨parts, hp⟩ := py_while_parts choice resolve wfuel _ _ hw
            obtain ⟨r2, hr2⟩ := py_for_appends choice resolve wfuel fn _ _ _ hok
            refine ⟨(parts.map (fun q => nl1 ++ q)).flatten ++ r2, ?_⟩
            rw [hr2, hp]
            simp [segOf, List.append_assoc]
    · rw [List.find?_cons_of_neg _ (by simpa using hmatch)] at hfind
      match n, hmatch with
      | .functionDef nm seg body, hmatch =>
        have hnm : ¬ nm = fn := by simpa [isMatchDef] using hmatch
        simp only [py_for] at hok
        simp only [hnm, if_false] at hok
        exact ih _ _ _ hfind hok
      | .call f cs, _ =>
        simp only [py_for] at hok
        exact ih _ _ _ hfind hok
      | .other cs, _ =>
        simp only [py_for] at hok
        exact ih _ _ _ hfind hok

/-! ## Claim theorems for the resolvers (C2, C9, C10, C6). -/
/-- Counterexample for C2 — the Python resolver does not stop at the first
matching definition: on a module with two definitions named `f`, the
returned snippet is the concatenation of BOTH segments, not the first
definition's text alone. -/
theorem python_appends_every_match :
    get_python_func choice0 (2 * dupTree.size + 2) dupTree fN [] [] =
      .ok (seg1 ++ seg2, [], [fN]) ∧ seg1 ++ seg2 ≠ seg1 := by
  refine ⟨by decide, by decide⟩

/-- Claim C2 amended — first-match discipline per resolver: the C-family resolver
returns the extent of the first matching definition in depth-first
pre-order; the Python resolver scans `ast.walk` (breadth-first) order and
appends every match, so its snippet starts with the first walk-order
match's stripped segment (and equals it only when the match is unique). -/
theorem resolver_first_match :
    (∀ (node : CNode) (fn : List Char) (h p : List (List Char)),
      (clang_find_function node fn h p).1 =
        ((dfs_preorder node).find? (isTargetDef fn)).map extentOf) ∧
    (∀ (choice : List (List Char) → Nat) (fuel : Nat) (tree : PyNode)
      (fn : List Char) (h p : List (List Char))
      (res : List Char × List (List Char) × List (List Char)) (m : PyNode),
      get_python_func choice (fuel + 1) tree fn h p = .ok res →
      (walk tree).find? (isMatchDef fn) = some m →
      ∃ r, res.1 = pystrip (segOf m) ++ r) := by
  constructor
  · exact clang_find_function_dfs
  · intro choice fuel tree fn h p res m hok hfind
    simp only [get_python_func] at hok
    match hfor : py_for choice (fun g h' p' => get_python_func choice fuel tree g h' p')
        fuel fn (walk tree) ⟨[], h, p⟩ with
    | .error e =>
      simp only [hfor] at hok
      simp at hok
    | .ok st =>
      simp only [hfor] at hok
      obtain ⟨r, hr⟩ := py_for_first_match choice
        (fun g h' p' => get_python_func choice fuel tree g h' p') fuel fn
        (walk tree) ⟨[], h, p⟩ st m hfind hfor
      cases hok
      exact ⟨r, by simpa using hr⟩

/-- Witness for C2 amended at the two-definition module: the snippet starts
with the first (walk-order) definition's stripped segment. -/
theorem resolver_first_match_witness :
    ∃ r, ((seg1 ++ seg2, ([] : List (List Char)), [fN]) :
        List Char × List (List Char) × List (List Char)).1 =
      pystrip (segOf (.functionDef fN seg1 (.cons (.other .nil) .nil))) ++ r :=
  resolver_first_match.2 choice0 (2 * dupTree.size + 1) dupTree fN [] []
    (seg1 ++ seg2, [], [fN]) (.functionDef fN seg1 (.cons (.other .nil) .nil))
    (by decide) (by decide)

/-- Counterexample for C9 — the Python resolver separates helper blocks by a
single `"\n"`, not by a blank line: resolving `f` (which calls `g`) yields
`segF9 ++ "\n" ++ segG9`, which differs from the blank-line form
`segF9 ++ "\n\n" ++ segG9`. -/
theorem python_helper_single_newline :
    get_python_func choice0 (2 * callTree.size + 2) callTree fN [] [] =
      .ok (segF9 ++ nl1 ++ segG9, [], [fN, gN]) ∧
    segF9 ++ nl1 ++ segG9 ≠ segF9 ++ nl2 ++ segG9 := by
  refine ⟨by decide, by decide⟩

/-- Claim C9 amended — helper-block separation per resolver: the C-family loop
appends every successfully resolved helper extract preceded by a blank line
(`"\n\n"`); the Python loop appends every recursively resolved helper
snippet preceded by a single newline (`"\n"`). -/
theorem helper_block_separators :
    (∀ (choice : List (List Char) → Nat) (tree : CNode) (content : List Char)
      (fuel : Nat) (h p : List (List Char)) (s : List Char),
      ∃ parts : List (List Char),
        (cpp_while choice tree content fuel h p s).1 =
          s ++ (parts.map (fun q => nl2 ++ q)).flatten) ∧
    (∀ (choice : List (List Char) → Nat)
      (resolve : List Char → List (List Char) → List (List Char) →
        Except PyExc (List Char × List (List Char) × List (List Char)))
      (wfuel : Nat) (st st' : PyState),
      py_while choice resolve wfuel st = .ok st' →
      ∃ parts : List (List Char),
        st'.snippet = st.snippet ++ (parts.map (fun q => nl1 ++ q)).flatten) :=
  ⟨fun choice tree content fuel h p s => cpp_while_parts choice tree content fuel h p s,
   fun choice resolve wfuel st st' hok => py_while_parts choice resolve wfuel st st' hok⟩

/-- Witness for C9 amended: one `py_while` iteration that resolves `g`
appends exactly `"\n" ++ segG9`. -/
theorem helper_block_separators_witness :
    ∃ parts : List (List Char),
      (⟨segF9 ++ nl1 ++ segG9, [], [fN, gN]⟩ : PyState).snippet =
        (⟨segF9, [gN], [fN]⟩ : PyState).snippet ++
          (parts.map (fun q => nl1 ++ q)).flatten :=
  helper_block_separators.2 choice0 pyResolveG 1 ⟨segF9, [gN], [fN]⟩
    ⟨segF9 ++ nl1 ++ segG9, [], [fN, gN]⟩ (by decide)

/-- Claim C10 — the Python resolver is not total over well-formed sources: a call
whose callee is a subscript expression (`handlers[0]()`) inside the target's
body makes `get_python_func` raise `AttributeError` (the code reads
`child.func.attr` whenever the callee is not a `Name`). -/
theorem python_subscript_call_raises :
    get_python_func choice0 (2 * subTree.size + 2) subTree fN [] [] =
      .error .attributeError := by
  decide

/-- Counterexample for C6 — a parse failure is NOT caught by the batch loop: with
a malformed first file, `main` propagates the `SyntaxError` and the second
(well-formed) file is never processed, although processing it alone
succeeds. -/
theorem parse_error_stops_remaining_files :
    main_loop choice0 cfgPy [badPy, goodPy] = .error .parseError ∧
    main_loop choice0 cfgPy [goodPy] =
      .ok [["def f():".toList, "    return 1".toList]] := by
  refine ⟨by decide, by decide⟩

/-- Claim C6 amended — what the batch loop actually does: an error raised while
resolving a file (such as a parse failure) propagates out of `main`'s loop
and aborts the batch from that file on; only the function-not-found case
(empty snippet) is skipped with a warning while processing continues. -/
theorem parse_error_aborts_batch :
    (∀ (choice : List (List Char) → Nat) (cfg : Config) (f : SourceFile)
      (rest : List SourceFile) (e : PyExc) (cfg2 : Config),
      find_snippet choice cfg f = (.error e, cfg2) →
      main_loop choice cfg (f :: rest) = .error e) ∧
    (∀ (choice : List (List Char) → Nat) (cfg : Config) (f : SourceFile)
      (rest : List SourceFile) (cfg2 : Config),
      find_snippet choice cfg f = (.ok [], cfg2) →
      main_loop choice cfg (f :: rest) = main_loop choice cfg2 rest) := by
  constructor
  · intro choice cfg f rest e cfg2 hfind
    simp only [main_loop, hfind]
  · intro choice cfg f rest cfg2 hfind
    simp only [main_loop, hfind, if_true]

/-- Witness for C6 amended: the malformed file aborts a concrete batch, and
a file whose target is missing is skipped while the loop continues. -/
theorem parse_error_aborts_batch_witness :
    main_loop choice0 cfgPy [badPy, nfPy] = .error .parseError ∧
    main_loop choice0 cfgPy [nfPy] = main_loop choice0 cfgPy [] :=
  ⟨parse_error_aborts_batch.1 choice0 cfgPy badPy [nfPy] .parseError cfgPy
      (by decide),
   parse_error_aborts_batch.2 choice0 cfgPy nfPy [] cfgPy (by decide)⟩

end CodeToPdf
